import Mathlib

/-!
Verification of the LRC Streaming Uploader core (src/app.py).

The development shallowly embeds the two core components of the program:
the row normalizer (Part 1, `app.py` lines 114-157) and the term
aggregator with its merge into the persistent master store (Part 2,
`app.py` lines 202-244), together with `sort_terms_dict`
(lines 36-45).

Modelling conventions:
* A spreadsheet / dataframe cell is a `Cell`: missing (pandas NaN),
  a string, or an integer.  Floats other than NaN do not occur in any
  claim and are not modelled.
* Python strings are modelled through their character lists; the string
  helpers (`pyStrip`, `pyLower`, `pyUpper`, `pySplitWS`, `pySplitComma`,
  python `str()` / `int()`) are defined below on ASCII text, mirroring
  the corresponding Python operations.
* Python dicts are modelled as association lists in insertion order
  (`dict` preserves insertion order; `setdefault` appends at the end).
* Exceptions are modelled with `Except String`; the Google-Drive blob
  write only happens after the whole merge succeeds, so an error result
  models "the persisted MasterStore is left unmodified".
* `pandas.groupby(..., sort=True)` orders groups by key; the spec
  declares record order "not significant", and no claim depends on the
  inter-group order, so grouping is modelled in first-occurrence order.
-/

/-! ## Definitions -/

deriving instance DecidableEq for Except

/-- Python whitespace characters (`str.split()` / `str.strip()` defaults). -/
def pyWSChar (c : Char) : Bool :=
  c = ' ' || c = '\t' || c = '\n' || c = '\r' || c = '\x0b' || c = '\x0c'

/-- `str.strip()` on a character list: drop whitespace at both ends. -/
def stripChars (l : List Char) : List Char :=
  ((l.dropWhile pyWSChar).reverse.dropWhile pyWSChar).reverse

/-- Python `s.strip()`. -/
def pyStrip (s : String) : String := String.mk (stripChars s.data)

/-- ASCII lower-casing of one character (Python `str.lower` on ASCII). -/
def pyCharLower (c : Char) : Char :=
  if 'A' ≤ c ∧ c ≤ 'Z' then Char.ofNat (c.toNat + 32) else c

/-- ASCII upper-casing of one character (Python `str.upper` on ASCII). -/
def pyCharUpper (c : Char) : Char :=
  if 'a' ≤ c ∧ c ≤ 'z' then Char.ofNat (c.toNat - 32) else c

/-- Python `s.lower()`. -/
def pyLower (s : String) : String := String.mk (s.data.map pyCharLower)

/-- Python `s.upper()`. -/
def pyUpper (s : String) : String := String.mk (s.data.map pyCharUpper)

/-- Helper for `pySplitWS`: accumulate the current word (reversed in `acc`)
while scanning the character list; whitespace runs separate words and
produce no empty words, exactly like Python `str.split()` with no
arguments. -/
def wordsAux (acc : List Char) : List Char → List (List Char)
  | [] => if acc.isEmpty then [] else [acc.reverse]
  | c :: t =>
    if pyWSChar c then
      if acc.isEmpty then wordsAux [] t else acc.reverse :: wordsAux [] t
    else
      wordsAux (c :: acc) t

/-- Python `s.split()` (no argument): split on whitespace runs, dropping
empty tokens. -/
def pySplitWS (s : String) : List String :=
  (wordsAux [] s.data).map String.mk

/-- Helper for `pySplitComma`: split at every `','`, keeping empty pieces. -/
def splitCommaAux (acc : List Char) : List Char → List (List Char)
  | [] => [acc.reverse]
  | c :: t =>
    if c = ',' then acc.reverse :: splitCommaAux [] t
    else splitCommaAux (c :: acc) t

/-- Python `s.split(",")`: always returns at least one piece (`""` splits
to `[""]`). -/
def pySplitComma (s : String) : List String :=
  (splitCommaAux [] s.data).map String.mk

/-- ASCII digit test (`[0-9]`). -/
def isDig (c : Char) : Bool := '0' ≤ c && c ≤ '9'

/-- Numeric value of an ASCII digit character. -/
def digitVal (c : Char) : Nat := c.toNat - 48

/-- The ASCII digit character for a value `0 ≤ d ≤ 9`. -/
def digitChar10 : Nat → Char
  | 0 => '0' | 1 => '1' | 2 => '2' | 3 => '3' | 4 => '4'
  | 5 => '5' | 6 => '6' | 7 => '7' | 8 => '8' | _ => '9'

/-- Parse a digit string (most significant first) to a natural number,
like Python `int` applied to a digit-only string. -/
def digitsToNat (l : List Char) : Nat :=
  l.foldl (fun a c => 10 * a + digitVal c) 0

/-- Decimal digits of a natural number (fuelled structural recursion so
that the kernel can evaluate it; `natCharsAux (n+1) n` always has enough
fuel). -/
def natCharsAux : Nat → Nat → List Char
  | 0, _ => []
  | fuel + 1, n =>
    if n < 10 then [digitChar10 n]
    else natCharsAux fuel (n / 10) ++ [digitChar10 (n % 10)]

/-- Decimal digit characters of a natural number. -/
def natChars (n : Nat) : List Char := natCharsAux (n + 1) n

/-- Python `str` of a non-negative integer. -/
def natStr (n : Nat) : String := String.mk (natChars n)

/-- Python `str` of an integer. -/
def intStr (i : Int) : String :=
  if i < 0 then String.mk ('-' :: natChars i.natAbs) else natStr i.toNat

/-- `l.all isDig` on a non-empty list: shape of strings accepted by
Python `int(...)` after stripping whitespace and an optional sign, and
of strings on which `str.isdigit()` returns true (ASCII). -/
def allDigits (l : List Char) : Bool := !l.isEmpty && l.all isDig

/-- Python `s.isdigit()` (ASCII digits). -/
def pyIsDigit (s : String) : Bool := allDigits s.data

/-- The first maximal run of ASCII digits in a character list:
`re.search(r"\d+", s)` / first element of `re.findall(r"\d+", s)`. -/
def firstDigitRun : List Char → Option (List Char)
  | [] => none
  | c :: t => if isDig c then some (c :: t.takeWhile isDig) else firstDigitRun t

/-- Does `needle` occur at the start of `hay`? -/
def listStartsWith : List Char → List Char → Bool
  | _, [] => true
  | [], _ :: _ => false
  | a :: as, b :: bs => a = b && listStartsWith as bs

/-- Python `needle in hay` on strings (substring containment). -/
def hasSubstr : List Char → List Char → Bool
  | [], needle => needle.isEmpty
  | c :: t, needle => listStartsWith (c :: t) needle || hasSubstr t needle

/-- Python `int(s)` on a string: strip whitespace, allow one sign, then
require only digits; `none` models the `ValueError` raised otherwise. -/
def pyIntOfString (s : String) : Option Int :=
  match stripChars s.data with
  | '-' :: t => if allDigits t then some (-(digitsToNat t : Int)) else none
  | '+' :: t => if allDigits t then some ((digitsToNat t : Int)) else none
  | t => if allDigits t then some ((digitsToNat t : Int)) else none

/-- Join a list of strings with `", "` (Python `", ".join(...)`). -/
def joinCS : List String → String
  | [] => ""
  | [x] => x
  | x :: y :: t => x ++ ", " ++ joinCS (y :: t)

/-- A spreadsheet / dataframe cell: missing (pandas `NaN`), a string, or
an integer. -/
inductive Cell where
  | na : Cell
  | str (s : String) : Cell
  | int (i : Int) : Cell
deriving DecidableEq

/-- `pd.isna` on a cell. -/
def isNA : Cell → Bool
  | Cell.na => true
  | _ => false

/-- Python `str(...)` of a cell value; a missing cell is the float `nan`,
whose `str` is `"nan"`. -/
def pyStr : Cell → String
  | Cell.na => "nan"
  | Cell.str s => s
  | Cell.int i => intStr i

/-- Python `int(...)` of a cell value; `none` models the `ValueError`
(`int(float('nan'))` also raises). -/
def pyInt : Cell → Option Int
  | Cell.na => none
  | Cell.str s => pyIntOfString s
  | Cell.int i => some i

/-- One level bucket: `{"students": 0, "reservations": 0}`. -/
structure LevelBucket where
  students : Int
  reservations : Int
deriving DecidableEq

/-- One department summary:
`{"levels": {}, "total_students": 0, "total_reservations": 0}`. -/
structure DeptSummary where
  levels : List (String × LevelBucket)
  total_students : Int
  total_reservations : Int
deriving DecidableEq

/-- One term summary (`term_json` in app.py, line 202). -/
structure TermSummary where
  total_students : Int
  total_reservations : Int
  departments : List (String × DeptSummary)
deriving DecidableEq

/-- The fresh `term_json` the aggregation loop starts from (line 202). -/
def emptyTermSummary : TermSummary := ⟨0, 0, []⟩

/-- One row of the checked spreadsheet as the aggregation loop reads it
(`row["Course"]`, `row["Language"]`, `row["Students Enrolled"]`,
`row["Reservations"]` in lines 204-225). -/
structure AggRow where
  course : Cell
  language : Cell
  studentsEnrolled : Cell
  reservations : Cell
deriving DecidableEq

/-- `d.setdefault(k, dflt)` followed by in-place mutation `f` of the
entry: a present key keeps its position, a missing key is appended at
the end of the dict (Python dicts preserve insertion order). -/
def updateAList {β : Type} (l : List (String × β)) (k : String) (dflt : β)
    (f : β → β) : List (String × β) :=
  match l with
  | [] => [(k, f dflt)]
  | (k2, v) :: t => if k2 = k then (k2, f v) :: t else (k2, v) :: updateAList t k dflt f

/-- Plain dict assignment `d[k] = v`: replace in place, or append. -/
def setA {β : Type} (l : List (String × β)) (k : String) (v : β) :
    List (String × β) :=
  match l with
  | [] => [(k, v)]
  | (k2, v2) :: t => if k2 = k then (k2, v) :: t else (k2, v2) :: setA t k v

/-- Dict lookup `d[k]` as an option. -/
def lookupA {β : Type} (k : String) : List (String × β) → Option β
  | [] => none
  | (k2, v) :: t => if k2 = k then some v else lookupA k t

/-- The skip test of line 205:
`if not code or "practice" in code.lower(): continue`,
with `code = str(row["Course"]).strip()`. -/
def skippedRow (row : AggRow) : Bool :=
  let code := pyStrip (pyStr row.course)
  code = "" || hasSubstr (pyLower code).data "practice".data

/-- Lines 210-214: first language of the record, `none` when absent.
`str(lang_cell).split(",")[0].strip().split()[0]` raises `IndexError`
when the first comma piece strips to whitespace only; `pySplitComma`
never returns an empty list, so `headI` is the total `[0]`. -/
def firstLangOf : Cell → Except String (Option String)
  | Cell.na => Except.ok none
  | c =>
    match pySplitWS (pyStrip ((pySplitComma (pyStr c)).headI)) with
    | [] => Except.error "IndexError: list index out of range"
    | w :: _ => Except.ok (if pyLower w = "nan" then none else some w)

/-- Lines 216-219: the department key.  `first_lang` is tested for Python
truthiness (`None` and `""` are falsy). -/
def deptKeyOf (raw_dept : String) (first_lang : Option String) : String :=
  let truthy : Bool := match first_lang with
    | none => false
    | some fl => fl != ""
  if (raw_dept = "asianlan" ∨ raw_dept = "slavic" ∨ raw_dept = "asian") ∧ truthy = true
  then pyUpper (raw_dept ++ ": " ++ first_lang.getD "")
  else pyUpper raw_dept

/-- Lines 221-222: the level bucket of a course code,
`str((int(m.group()) // 100) * 100)` when the code contains digits,
else `"Unknown"`. -/
def levelOf (code : String) : String :=
  match firstDigitRun code.data with
  | some ds => natStr (digitsToNat ds / 100 * 100)
  | none => "Unknown"

/-- Lines 204-225 for one row: `none` when the row is skipped, otherwise
the `(dept_key, level, students, reservations)` that lines 227-236
accumulate; `Except.error` models the unhandled exceptions
(`IndexError` from language tokenisation, `ValueError` from `int(...)`). -/
def rowParams (row : AggRow) : Except String (Option (String × String × Int × Int)) :=
  let code := pyStrip (pyStr row.course)
  if code = "" || hasSubstr (pyLower code).data "practice".data then Except.ok none
  else
    match pySplitWS code with
    | [] => Except.error "IndexError: list index out of range"
    | tok :: _ =>
      let raw_dept := pyLower (pyStrip tok)
      match firstLangOf row.language with
      | Except.error e => Except.error e
      | Except.ok first_lang =>
        match pyInt row.studentsEnrolled with
        | none => Except.error "ValueError: invalid literal for int"
        | some students =>
          match pyInt row.reservations with
          | none => Except.error "ValueError: invalid literal for int"
          | some reservs =>
            Except.ok (some (deptKeyOf raw_dept first_lang, levelOf code, students, reservs))

/-- Lines 227-236: add one record's counts into the level bucket, the
department totals and the term totals (each a running sum, via
`setdefault` plus `+=`). -/
def bump (t : TermSummary) (dept_key level : String) (students reservs : Int) :
    TermSummary :=
  { total_students := t.total_students + students
    total_reservations := t.total_reservations + reservs
    departments := updateAList t.departments dept_key ⟨[], 0, 0⟩ (fun d =>
      { levels := updateAList d.levels level ⟨0, 0⟩
          (fun b => ⟨b.students + students, b.reservations + reservs⟩)
        total_students := d.total_students + students
        total_reservations := d.total_reservations + reservs }) }

/-- One iteration of the `for _, row in df_term.iterrows()` loop. -/
def aggStep (t : TermSummary) (row : AggRow) : Except String TermSummary :=
  match rowParams row with
  | Except.error e => Except.error e
  | Except.ok none => Except.ok t
  | Except.ok (some (d, l, s, r)) => Except.ok (bump t d l s r)

/-- The `for` loop itself: process rows left to right, stopping at the
first unhandled exception. -/
def aggLoop : TermSummary → List AggRow → Except String TermSummary
  | t, [] => Except.ok t
  | t, row :: rest =>
    match aggStep t row with
    | Except.error e => Except.error e
    | Except.ok t2 => aggLoop t2 rest

/-- The whole aggregation loop (lines 202-236): a fresh `term_json`
built only from this run's rows. -/
def aggregateTerm (rows : List AggRow) : Except String TermSummary :=
  aggLoop emptyTermSummary rows

/-- Lines 38-44: the chronological sort key of a term label.
`parts[0]` raises `IndexError` on a label with no tokens, hence the
`Option`.  The key is `(year, season rank)` with Winter=0, SpSu=1,
Fall=2, anything else 3. -/
def termKey (label : String) : Option (Nat × Nat) :=
  match pySplitWS label with
  | [] => none
  | season :: rest =>
    let year := match rest with
      | [] => "0"
      | y :: _ => y
    let y := if pyIsDigit year then digitsToNat year.data else 0
    let rank := if season = "Winter" then 0
      else if season = "SpSu" then 1
      else if season = "Fall" then 2
      else 3
    some (y, rank)

/-- Strict lexicographic comparison of sort keys (Python tuple `<`). -/
def keyLtB (a b : Nat × Nat) : Bool :=
  decide (a.1 < b.1 ∨ (a.1 = b.1 ∧ a.2 < b.2))

/-- Stable insertion of `x` into a list already sorted by `key`:
`x` goes before the first strictly greater element, hence after any
element with an equal key, like Python's stable `sorted`. -/
def sIns {α : Type} (key : α → Nat × Nat) (x : α) : List α → List α
  | [] => [x]
  | y :: t => if keyLtB (key x) (key y) then x :: y :: t else y :: sIns key x t

/-- Stable sort by `key` (insertion sort, processing left to right). -/
def sortByKey {α : Type} (key : α → Nat × Nat) (l : List α) : List α :=
  l.foldl (fun acc x => sIns key x acc) []

/-- `sort_terms_dict` (lines 36-45): `sorted` first computes the key of
every item and raises `IndexError` if any label has no tokens, else
returns the stably sorted dict. -/
def sort_terms_dict (terms : List (String × TermSummary)) :
    Except String (List (String × TermSummary)) :=
  if terms.all (fun p => (termKey p.1).isSome) then
    Except.ok (sortByKey (fun p => (termKey p.1).getD (0, 0)) terms)
  else Except.error "IndexError: list index out of range"

/-- Lines 238-244: merge one term into the master store.
`master_data["terms"][term] = term_json` (full replacement) followed by
the chronological re-sort; the Drive upload of line 244 runs only when
everything before it succeeded, so an `Except.error` result models a run
that leaves the persisted MasterStore unmodified. -/
def mergeTerm (terms : List (String × TermSummary)) (label : String)
    (rows : List AggRow) : Except String (List (String × TermSummary)) :=
  match aggregateTerm rows with
  | Except.error e => Except.error e
  | Except.ok ts => sort_terms_dict (setA terms label ts)

/-- One raw spreadsheet row with the five required columns
(`Uniquename`, `Course`, `Section`, `CIR_COL::LANGUAGE`, `Enrollment`);
the case-insensitive header matching of lines 114-122 is outside the
claims and not modelled. -/
structure RawRow where
  uniquename : Cell
  course : Cell
  «section» : Cell
  language : Cell
  enrollment : Cell
deriving DecidableEq

/-- One output record of the normalizer (lines 148-155). -/
structure CleanRecord where
  instructor : Cell
  course : Cell
  «section» : Cell
  language : String
  reservations : Nat
  students : Nat
deriving DecidableEq

/-- pandas `series.str.strip()` on one cell: non-strings become NaN. -/
def pdStrStrip : Cell → Cell
  | Cell.str s => Cell.str (pyStrip s)
  | _ => Cell.na

/-- pandas `series.ne("")` on one cell: `NaN != ""` is `True`. -/
def pdNeEmpty : Cell → Bool
  | Cell.str s => s != ""
  | _ => true

/-- Line 125 row filter: `df_raw[C].notna() & df_raw[C].str.strip().ne("")`. -/
def keepRow (r : RawRow) : Bool :=
  !isNA r.course && pdNeEmpty (pdStrStrip r.course)

/-- Line 126: `df[C] = df[C].str.strip().str.upper()` on one cell
(non-string courses become NaN under the `.str` accessor). -/
def cleanCourse : Cell → Cell
  | Cell.str s => Cell.str (pyUpper (pyStrip s))
  | _ => Cell.na

/-- Line 127 test: `df[C].str.lower().str.contains("testcourse", na=False)`. -/
def isTestCourse : Cell → Bool
  | Cell.str s => hasSubstr (pyLower s).data "testcourse".data
  | _ => false

/-- Lines 125-127: the cleaning pipeline before grouping. -/
def prep (t : List RawRow) : List RawRow :=
  (((t.filter keepRow).map (fun r => { r with course := cleanCourse r.course })).filter
    (fun r => !isTestCourse r.course))

/-- The `groupby([U, C, S], dropna=False)` key of a row (after the course
transform); with `dropna=False` missing values are ordinary keys. -/
def keyOf (r : RawRow) : Cell × Cell × Cell :=
  (r.uniquename, r.course, r.«section»)

/-- Append row `r` to the group keyed `k`, or open a new group at the
end. -/
def addToGroups (gs : List ((Cell × Cell × Cell) × List RawRow))
    (k : Cell × Cell × Cell) (r : RawRow) :
    List ((Cell × Cell × Cell) × List RawRow) :=
  match gs with
  | [] => [(k, [r])]
  | (k2, rs) :: t =>
    if k2 = k then (k2, rs ++ [r]) :: t else (k2, rs) :: addToGroups t k r

/-- Group rows by `keyOf`, keeping the original order inside each group
(groups listed in first-occurrence order; see the header comment on
group order). -/
def groupRows (rows : List RawRow) : List ((Cell × Cell × Cell) × List RawRow) :=
  rows.foldl (fun gs r => addToGroups gs (keyOf r) r) []

/-- Deduplication by first occurrence, case-sensitive (lines 132-135). -/
def dedupFirst (seen : List String) : List String → List String
  | [] => []
  | x :: t => if seen.contains x then dedupFirst seen t
              else x :: dedupFirst (seen ++ [x]) t

/-- Lines 139-145: the Students Enrolled value of one group, from the
group's enrollment cells in original row order:
`non_null = group[E].dropna()`, then the first maximal digit run of
`str(non_null.iloc[0])`, else 0. -/
def studentsOf (es : List Cell) : Nat :=
  match es.filter (fun c => !isNA c) with
  | [] => 0
  | c :: _ =>
    match firstDigitRun (pyStr c).data with
    | some ds => digitsToNat ds
    | none => 0

/-- Lines 131-155: the CleanRecord of one `(instr, course, section)`
group. -/
def recordOfGroup (g : (Cell × Cell × Cell) × List RawRow) : CleanRecord :=
  let langs := ((g.2.map (fun r => r.language)).filter (fun c => !isNA c)).map
    (fun c => pyStrip (pyStr c))
  { instructor := g.1.1
    course := g.1.2.1
    «section» :=
      if !isNA g.1.2.2 && pyStrip (pyStr g.1.2.2) != "" then g.1.2.2
      else Cell.str "Unknown Section"
    language := joinCS (dedupFirst [] langs)
    reservations := g.2.length
    students := studentsOf (g.2.map (fun r => r.enrollment)) }

/-- The whole normalizer (lines 114-157): clean, group, and emit one
record per group. -/
def normalizeRows (t : List RawRow) : List CleanRecord :=
  (groupRows (prep t)).map recordOfGroup

/-- Present a clean record as a raw row again, for re-running the
normalizer on its own output: Instructor, Course, Section and Language
become the five required columns (the Reservations column of the clean
sheet has no counterpart and is dropped; Students Enrolled is a Python
int in the written sheet). -/
def inject (r : CleanRecord) : RawRow :=
  { uniquename := r.instructor
    course := r.course
    «section» := r.«section»
    language := Cell.str r.language
    enrollment := Cell.int (r.students : Int) }

/-- Override Reservations with 1, the expected effect of re-normalizing
a one-row-per-group table. -/
def setRes1 (r : CleanRecord) : CleanRecord := { r with reservations := 1 }

def c1Terms : List (String × TermSummary) :=
  [("Fall 2023", ⟨7, 8, [("FRENCH", ⟨[("200", ⟨7, 8⟩)], 7, 8⟩)]⟩)]

def c1Rows : List AggRow :=
  [⟨Cell.str "FRENCH 220", Cell.str "French", Cell.int 25, Cell.int 2⟩]

def c1Out : List (String × TermSummary) :=
  [("Fall 2023", ⟨7, 8, [("FRENCH", ⟨[("200", ⟨7, 8⟩)], 7, 8⟩)]⟩),
   ("Winter 2024", ⟨25, 2, [("FRENCH", ⟨[("200", ⟨25, 2⟩)], 25, 2⟩)]⟩)]

/-- Department totals equal the sums of their level buckets. -/
def deptSumsOK (d : DeptSummary) : Prop :=
  d.total_students = (d.levels.map (fun p => p.2.students)).sum ∧
  d.total_reservations = (d.levels.map (fun p => p.2.reservations)).sum

/-- Term totals equal the sums of department totals, and every
department satisfies `deptSumsOK`. -/
def termSumsOK (t : TermSummary) : Prop :=
  t.total_students = (t.departments.map (fun p => p.2.total_students)).sum ∧
  t.total_reservations = (t.departments.map (fun p => p.2.total_reservations)).sum ∧
  ∀ q ∈ t.departments, deptSumsOK q.2

/-- A level key as produced by line 222: a multiple of 100 printed in
decimal, or the literal `"Unknown"`. -/
def goodLevel (key : String) : Prop :=
  key = "Unknown" ∨ ∃ k, key = natStr (k * 100)

/-- All level keys of all departments are good. -/
def levelsOK (t : TermSummary) : Prop :=
  ∀ q ∈ t.departments, ∀ p ∈ q.2.levels, goodLevel p.1

/-- Transcribed from the claim wording (C5), for comparison with the
source-derived `rowParams`: the first language is the first
comma-separated token of the language field, then its first
whitespace-delimited sub-token (via `head?` rather than a partial
index), absent when the field is missing or the token case-insensitively
equals `"nan"`.  (The inner `pyStrip` is the code's redundant `.strip()`
before `.split()`, which does not change the tokens.) -/
def spec_first_language (language : Cell) : Option String :=
  match language with
  | Cell.na => none
  | lc =>
    match (pySplitWS (pyStrip ((pySplitComma (pyStr lc)).headI))).head? with
    | none => none
    | some w => if pyLower w = "nan" then none else some w

/-- Transcribed from the claim wording (C5): raw key = first
whitespace-delimited token of the (trimmed) course text, lowercased;
if it is one of `asianlan`, `slavic`, `asian` and a first language was
extracted, the key is `uppercase(raw ++ ": " ++ language)`, else
`uppercase(raw)`. -/
def spec_dept_key (course language : Cell) : String :=
  let raw := pyLower ((pySplitWS (pyStrip (pyStr course))).headD "")
  match spec_first_language language with
  | some fl =>
    if raw = "asianlan" ∨ raw = "slavic" ∨ raw = "asian"
    then pyUpper (raw ++ ": " ++ fl)
    else pyUpper raw
  | none => pyUpper raw

/-- Transcribed from the claim wording (C7), for comparison with the
source-derived `studentsOf`: take the first row of the group, in
original order, whose enrollment is non-missing (`List.find?`), extract
the first maximal digit run of its string representation and parse it;
0 when there is no digit or no non-missing enrollment. -/
def spec_students (es : List Cell) : Nat :=
  match es.find? (fun c => !isNA c) with
  | none => 0
  | some c =>
    match firstDigitRun (pyStr c).data with
    | some ds => digitsToNat ds
    | none => 0

/-- The shape of a clean record on which re-normalization reproduces it:
a string course that is trimmed, uppercased, non-blank and free of the
`testcourse` marker (all automatic for string-course inputs), a section
that passes the line 147 test (automatic for normalizer output), and a
language unchanged by trimming. -/
def GoodRec (rec : CleanRecord) : Bool :=
  (match rec.course with
   | Cell.str c =>
     pyStrip c == c && pyUpper c == c && c != "" &&
       !hasSubstr (pyLower c).data "testcourse".data
   | _ => false) &&
  (!isNA rec.«section» && pyStrip (pyStr rec.«section») != "") &&
  (pyStrip rec.language == rec.language)

/-- The raw table of the C8 counterexample: two rows identical except
that one section is missing (NaN) and the other is the literal text
`"Unknown Section"`.  Both normalize to Section `"Unknown Section"`. -/
def c8t : List RawRow :=
  [⟨Cell.str "a", Cell.str "X 1", Cell.na, Cell.na, Cell.na⟩,
   ⟨Cell.str "a", Cell.str "X 1", Cell.str "Unknown Section", Cell.na, Cell.na⟩]

/-- The raw table of the C8 witness (the spec's end-to-end example). -/
def c8w : List RawRow :=
  [⟨Cell.str "abc123", Cell.str "french 220", Cell.int 1, Cell.str "French", Cell.int 25⟩,
   ⟨Cell.str "abc123", Cell.str "FRENCH 220 ", Cell.int 1, Cell.str "French", Cell.int 25⟩]

/-! ## Concrete evaluations -/

example : pyStrip "  a b " = "a b" := by decide
example : pySplitWS " Fall  2024 " = ["Fall", "2024"] := by decide
example : pySplitComma "" = [""] := by decide
example : pySplitComma "Japanese, Korean" = ["Japanese", " Korean"] := by decide
example : firstDigitRun "FRENCH 220".data = some ['2', '2', '0'] := by decide
example : natStr 200 = "200" := by decide
example : pyInt (Cell.str "  25 ") = some 25 := by decide
example : pyInt (Cell.str "25 students") = none := by decide
example : hasSubstr "my practice 1".data "practice".data = true := by decide
example : pyUpper "asianlan: Japanese" = "ASIANLAN: JAPANESE" := by decide

example : rowParams ⟨Cell.str "FRENCH 220", Cell.str "French", Cell.int 25, Cell.int 2⟩
    = Except.ok (some ("FRENCH", "200", 25, 2)) := by decide
example : rowParams ⟨Cell.str "ASIANLAN 101", Cell.str "Japanese, Korean", Cell.int 5, Cell.int 2⟩
    = Except.ok (some ("ASIANLAN: JAPANESE", "100", 5, 2)) := by decide
example : rowParams ⟨Cell.na, Cell.na, Cell.int 3, Cell.int 2⟩
    = Except.ok (some ("NAN", "Unknown", 3, 2)) := by decide
example : rowParams ⟨Cell.str "Practice 100", Cell.na, Cell.str "x", Cell.str "y"⟩
    = Except.ok none := by decide
example : rowParams ⟨Cell.str "FRENCH 220", Cell.str "", Cell.int 1, Cell.int 1⟩
    = Except.error "IndexError: list index out of range" := by decide
example : termKey "Fall 2024" = some (2024, 2) := by decide
example : sort_terms_dict [("Fall 2024", ⟨1, 1, []⟩), ("Winter 2025", ⟨2, 2, []⟩), ("SpSu 2024", ⟨3, 3, []⟩)]
    = Except.ok [("SpSu 2024", ⟨3, 3, []⟩), ("Fall 2024", ⟨1, 1, []⟩), ("Winter 2025", ⟨2, 2, []⟩)] := by decide

example : normalizeRows
    [⟨Cell.str "abc123", Cell.str "french 220", Cell.int 1, Cell.str "French", Cell.int 25⟩,
     ⟨Cell.str "abc123", Cell.str "FRENCH 220 ", Cell.int 1, Cell.str "French", Cell.int 25⟩]
    = [⟨Cell.str "abc123", Cell.str "FRENCH 220", Cell.int 1, "French", 2, 25⟩] := by decide
example : studentsOf [Cell.str "25 students"] = 25 := by decide
example : studentsOf [Cell.na, Cell.na] = 0 := by decide
example : dedupFirst [] ["French", "French", "German"] = ["French", "German"] := by decide

/-! ## Lemmas and claim theorems -/

theorem digitVal_digitChar10 (d : Nat) (h : d < 10) : digitVal (digitChar10 d) = d := by
  interval_cases d <;> decide

theorem isDig_digitChar10 (d : Nat) (h : d < 10) : isDig (digitChar10 d) = true := by
  interval_cases d <;> decide

theorem digitsToNat_append_one (xs : List Char) (c : Char) :
    digitsToNat (xs ++ [c]) = 10 * digitsToNat xs + digitVal c := by
  simp [digitsToNat, List.foldl_append]

theorem natCharsAux_props : ∀ fuel n, n < fuel →
    natCharsAux fuel n ≠ [] ∧ (natCharsAux fuel n).all isDig = true ∧
      digitsToNat (natCharsAux fuel n) = n := by
  intro fuel
  induction fuel with
  | zero => intro n h; omega
  | succ fuel ih =>
    intro n h
    by_cases h10 : n < 10
    · refine ⟨by simp [natCharsAux, h10], ?_, ?_⟩
      · simp [natCharsAux, h10, isDig_digitChar10 n h10]
      · simp [natCharsAux, h10, digitsToNat, digitVal_digitChar10 n h10]
    · have hdiv : n / 10 < fuel := by
        have : n / 10 < n := Nat.div_lt_self (by omega) (by omega)
        omega
      obtain ⟨h1, h2, h3⟩ := ih (n / 10) hdiv
      have hmod : n % 10 < 10 := Nat.mod_lt _ (by omega)
      refine ⟨by simp [natCharsAux, h10], ?_, ?_⟩
      · simp only [natCharsAux, if_neg h10, List.all_append, List.all_cons, List.all_nil,
          Bool.and_true, h2, Bool.true_and]
        exact isDig_digitChar10 _ hmod
      · simp only [natCharsAux, if_neg h10, digitsToNat_append_one, h3,
          digitVal_digitChar10 _ hmod]
        omega

theorem natChars_ne_nil (n : Nat) : natChars n ≠ [] :=
  (natCharsAux_props (n + 1) n (by omega)).1

theorem natChars_all_dig (n : Nat) : (natChars n).all isDig = true :=
  (natCharsAux_props (n + 1) n (by omega)).2.1

theorem digitsToNat_natChars (n : Nat) : digitsToNat (natChars n) = n :=
  (natCharsAux_props (n + 1) n (by omega)).2.2

theorem takeWhile_eq_self_of (p : Char → Bool) :
    ∀ l : List Char, (∀ c ∈ l, p c = true) → l.takeWhile p = l := by
  intro l
  induction l with
  | nil => intro _; rfl
  | cons c t ih =>
    intro h
    simp only [List.takeWhile_cons, h c (by simp)]
    exact congrArg (c :: ·) (ih fun x hx => h x (by simp [hx]))

theorem firstDigitRun_of_all (l : List Char) (h1 : l ≠ [])
    (h2 : l.all isDig = true) : firstDigitRun l = some l := by
  cases l with
  | nil => exact absurd rfl h1
  | cons c t =>
    simp only [List.all_cons, Bool.and_eq_true] at h2
    simp only [firstDigitRun, h2.1, if_true]
    rw [takeWhile_eq_self_of isDig t (by simpa [List.all_eq_true] using h2.2)]

theorem firstDigitRun_natChars (n : Nat) : firstDigitRun (natChars n) = some (natChars n) :=
  firstDigitRun_of_all _ (natChars_ne_nil n) (natChars_all_dig n)

theorem dropWhile_eq_self_of (p : Char → Bool) (l : List Char)
    (h : ∀ c ∈ l, p c = false) : l.dropWhile p = l := by
  cases l with
  | nil => rfl
  | cons c t => simp [List.dropWhile_cons, h c (by simp)]

theorem stripChars_of_no_ws (l : List Char) (h : ∀ c ∈ l, pyWSChar c = false) :
    stripChars l = l := by
  unfold stripChars
  rw [dropWhile_eq_self_of pyWSChar l h,
    dropWhile_eq_self_of pyWSChar l.reverse (fun c hc => h c (List.mem_reverse.mp hc)),
    List.reverse_reverse]

theorem mem_wordsAux : ∀ (l acc : List Char) (w : List Char), w ∈ wordsAux acc l →
    (∀ c ∈ acc, pyWSChar c = false) →
    w ≠ [] ∧ ∀ c ∈ w, pyWSChar c = false := by
  intro l
  induction l with
  | nil =>
    intro acc w hw hacc
    by_cases he : acc.isEmpty
    · simp [wordsAux, he] at hw
    · simp only [wordsAux, he, Bool.false_eq_true, if_false, List.mem_singleton] at hw
      subst hw
      constructor
      · simpa [List.isEmpty_iff] using fun h => he (by simp [List.isEmpty_iff, ← List.reverse_eq_nil_iff, h])
      · intro c hc; exact hacc c (List.mem_reverse.mp hc)
  | cons c t ih =>
    intro acc w hw hacc
    by_cases hws : pyWSChar c
    · by_cases he : acc.isEmpty
      · simp only [wordsAux, hws, he, if_true] at hw
        exact ih [] w hw (by simp)
      · simp only [wordsAux, hws, he, Bool.false_eq_true, if_false, if_true,
          List.mem_cons] at hw
        rcases hw with hw | hw
        · subst hw
          constructor
          · simpa using fun h => he (by simp [List.isEmpty_iff, ← List.reverse_eq_nil_iff, h])
          · intro x hx; exact hacc x (List.mem_reverse.mp hx)
        · exact ih [] w hw (by simp)
    · simp only [wordsAux, hws, Bool.false_eq_true, if_false] at hw
      refine ih (c :: acc) w hw ?_
      intro x hx
      rcases List.mem_cons.mp hx with hx | hx
      · subst hx; simpa using hws
      · exact hacc x hx

theorem token_facts (s w : String) (hw : w ∈ pySplitWS s) :
    w ≠ "" ∧ pyStrip w = w := by
  simp only [pySplitWS, List.mem_map] at hw
  obtain ⟨cs, hcs, rfl⟩ := hw
  obtain ⟨hne, hno⟩ := mem_wordsAux s.data [] cs hcs (by simp)
  constructor
  · intro h
    apply hne
    have : (String.mk cs).data = ("" : String).data := by rw [h]
    simpa using this
  · simp only [pyStrip]
    rw [stripChars_of_no_ws cs hno]

theorem updateAList_sum {β : Type} (g : String × β → Int) (s : Int) (f : β → β)
    (dflt : β) (k : String)
    (hf : ∀ v, g (k, f v) = g (k, v) + s) (hd : g (k, f dflt) = s) :
    ∀ l : List (String × β), ((updateAList l k dflt f).map g).sum = (l.map g).sum + s := by
  intro l
  induction l with
  | nil => simp [updateAList, hd]
  | cons p t ih =>
    obtain ⟨k2, v⟩ := p
    by_cases hk : k2 = k
    · subst hk
      simp only [updateAList, if_true]
      simp only [List.map_cons, List.sum_cons, hf]
      ring
    · simp only [updateAList, if_neg hk, List.map_cons, List.sum_cons, ih]
      ring

theorem bump_dept_students_sum (deps : List (String × DeptSummary)) (d lv : String)
    (s r : Int) :
    ((updateAList deps d ⟨[], 0, 0⟩ (fun d0 =>
      { levels := updateAList d0.levels lv ⟨0, 0⟩
          (fun b => ⟨b.students + s, b.reservations + r⟩)
        total_students := d0.total_students + s
        total_reservations := d0.total_reservations + r })).map
      (fun p => p.2.total_students)).sum
      = (deps.map (fun p => p.2.total_students)).sum + s :=
  updateAList_sum (fun p => p.2.total_students) s _ _ d (fun v => rfl) (by simp) deps

theorem bump_dept_reservations_sum (deps : List (String × DeptSummary)) (d lv : String)
    (s r : Int) :
    ((updateAList deps d ⟨[], 0, 0⟩ (fun d0 =>
      { levels := updateAList d0.levels lv ⟨0, 0⟩
          (fun b => ⟨b.students + s, b.reservations + r⟩)
        total_students := d0.total_students + s
        total_reservations := d0.total_reservations + r })).map
      (fun p => p.2.total_reservations)).sum
      = (deps.map (fun p => p.2.total_reservations)).sum + r :=
  updateAList_sum (fun p => p.2.total_reservations) r _ _ d (fun v => rfl) (by simp) deps

theorem bump_level_students_sum (lvls : List (String × LevelBucket)) (lv : String)
    (s r : Int) :
    ((updateAList lvls lv ⟨0, 0⟩ (fun b => ⟨b.students + s, b.reservations + r⟩)).map
      (fun p => p.2.students)).sum = (lvls.map (fun p => p.2.students)).sum + s :=
  updateAList_sum (fun p => p.2.students) s _ _ lv (fun v => rfl) (by simp) lvls

theorem bump_level_reservations_sum (lvls : List (String × LevelBucket)) (lv : String)
    (s r : Int) :
    ((updateAList lvls lv ⟨0, 0⟩ (fun b => ⟨b.students + s, b.reservations + r⟩)).map
      (fun p => p.2.reservations)).sum = (lvls.map (fun p => p.2.reservations)).sum + r :=
  updateAList_sum (fun p => p.2.reservations) r _ _ lv (fun v => rfl) (by simp) lvls

theorem updateAList_forall {β : Type} (P : String × β → Prop) (f : β → β) (dflt : β)
    (k : String) :
    ∀ l : List (String × β), (∀ q ∈ l, P q) → P (k, f dflt) →
      (∀ v, P (k, v) → P (k, f v)) →
      ∀ q ∈ updateAList l k dflt f, P q := by
  intro l
  induction l with
  | nil =>
    intro _ hd _ q hq
    simp only [updateAList, List.mem_singleton] at hq
    exact hq ▸ hd
  | cons p t ih =>
    intro hl hd hf q hq
    obtain ⟨k2, v⟩ := p
    by_cases hk : k2 = k
    · subst hk
      simp only [updateAList, if_pos rfl] at hq
      rcases List.mem_cons.mp hq with hq2 | hq2
      · exact hq2 ▸ hf v (hl (k2, v) (List.mem_cons_self _ _))
      · exact hl q (List.mem_cons_of_mem _ hq2)
    · simp only [updateAList, if_neg hk] at hq
      rcases List.mem_cons.mp hq with hq2 | hq2
      · exact hq2 ▸ hl (k2, v) (List.mem_cons_self _ _)
      · exact ih (fun q2 hq3 => hl q2 (List.mem_cons_of_mem _ hq3)) hd hf q hq2

theorem rowParams_ok_some {row : AggRow} {d l : String} {s r : Int}
    (h : rowParams row = Except.ok (some (d, l, s, r))) :
    skippedRow row = false ∧
    ∃ tok rest fl,
      pySplitWS (pyStrip (pyStr row.course)) = tok :: rest ∧
      firstLangOf row.language = Except.ok fl ∧
      pyInt row.studentsEnrolled = some s ∧
      pyInt row.reservations = some r ∧
      d = deptKeyOf (pyLower (pyStrip tok)) fl ∧
      l = levelOf (pyStrip (pyStr row.course)) := by
  simp only [rowParams] at h
  split at h
  · simp at h
  · rename_i hskip
    constructor
    · simpa [skippedRow] using hskip
    · split at h
      · simp at h
      · rename_i tok rest htok
        refine ⟨tok, rest, ?_⟩
        split at h
        · simp at h
        · rename_i fl hfl
          split at h
          · simp at h
          · rename_i students hstu
            split at h
            · simp at h
            · rename_i reservs hres
              refine ⟨fl, htok, hfl, ?_⟩
              injection h with h2
              injection h2 with h3
              injection h3 with hd h4
              injection h4 with hlv h5
              injection h5 with hs h6
              subst hd hlv hs h6
              exact ⟨hstu, hres, rfl, rfl⟩

theorem aggStep_ok {t t2 : TermSummary} {row : AggRow}
    (h : aggStep t row = Except.ok t2) :
    t2 = t ∨ ∃ d l s r, rowParams row = Except.ok (some (d, l, s, r)) ∧
      t2 = bump t d l s r := by
  unfold aggStep at h
  split at h
  · exact absurd h (by simp)
  · rename_i hrp
    left; injection h with h; exact h.symm
  · rename_i d l s r hrp
    right
    refine ⟨d, l, s, r, hrp, ?_⟩
    injection h with h; exact h.symm

theorem aggLoop_preserves (P : TermSummary → Prop)
    (hstep : ∀ t row t2, aggStep t row = Except.ok t2 → P t → P t2) :
    ∀ (rows : List AggRow) (t0 ts : TermSummary), P t0 →
      aggLoop t0 rows = Except.ok ts → P ts := by
  intro rows
  induction rows with
  | nil =>
    intro t0 ts h0 h
    injection h with h
    exact h ▸ h0
  | cons row rest ih =>
    intro t0 ts h0 h
    unfold aggLoop at h
    cases hstep0 : aggStep t0 row with
    | error e => rw [hstep0] at h; exact absurd h (by simp)
    | ok t1 =>
      rw [hstep0] at h
      exact ih t1 ts (hstep t0 row t1 hstep0 h0) h

theorem aggLoop_error_of_mem {rows : List AggRow} {row : AggRow}
    (hmem : row ∈ rows) {e : String} (herr : rowParams row = Except.error e) :
    ∀ t0, ∃ e2, aggLoop t0 rows = Except.error e2 := by
  induction rows with
  | nil => cases hmem
  | cons hd rest ih =>
    intro t0
    rcases List.mem_cons.mp hmem with hmem2 | hmem2
    · subst hmem2
      exact ⟨e, by simp [aggLoop, aggStep, herr]⟩
    · cases hstep0 : aggStep t0 hd with
      | error e2 => exact ⟨e2, by simp [aggLoop, hstep0]⟩
      | ok t1 =>
        obtain ⟨e2, h2⟩ := ih hmem2 t1
        exact ⟨e2, by simp [aggLoop, hstep0, h2]⟩

theorem keyLtB_asymm {a b : Nat × Nat} (h : keyLtB a b = true) : keyLtB b a = false := by
  simp only [keyLtB, decide_eq_true_eq, decide_eq_false_iff_not] at *
  omega

theorem keyLtB_le_trans {a b c : Nat × Nat} (h1 : keyLtB b a = false)
    (h2 : keyLtB c b = false) : keyLtB c a = false := by
  simp only [keyLtB, decide_eq_true_eq, decide_eq_false_iff_not] at *
  omega

theorem sIns_perm {α : Type} (key : α → Nat × Nat) (x : α) :
    ∀ l : List α, (sIns key x l).Perm (x :: l) := by
  intro l
  induction l with
  | nil => simp [sIns]
  | cons y t ih =>
    by_cases h : keyLtB (key x) (key y) = true
    · simp [sIns, h]
    · simp only [sIns, h, Bool.false_eq_true, if_false]
      exact ((ih.cons y).trans (List.Perm.swap x y t))

theorem sortByKey_perm {α : Type} (key : α → Nat × Nat) (l : List α) :
    (sortByKey key l).Perm l := by
  suffices h : ∀ (l acc : List α), (l.foldl (fun acc x => sIns key x acc) acc).Perm (acc ++ l) by
    simpa using h l []
  intro l
  induction l with
  | nil => intro acc; simp
  | cons x t ih =>
    intro acc
    simp only [List.foldl_cons]
    refine (ih (sIns key x acc)).trans ?_
    refine (List.Perm.append_right t ((sIns_perm key x acc))).trans ?_
    simpa using List.perm_middle.symm

theorem mem_sIns {α : Type} {key : α → Nat × Nat} {x z : α} {l : List α}
    (h : z ∈ sIns key x l) : z = x ∨ z ∈ l :=
  List.mem_cons.mp ((sIns_perm key x l).mem_iff.mp h)

theorem pairwise_sIns {α : Type} (key : α → Nat × Nat) (x : α) :
    ∀ l : List α, l.Pairwise (fun a b => keyLtB (key b) (key a) = false) →
      (sIns key x l).Pairwise (fun a b => keyLtB (key b) (key a) = false) := by
  intro l
  induction l with
  | nil => intro _; simp [sIns]
  | cons y t ih =>
    intro hp
    rcases List.pairwise_cons.mp hp with ⟨hy, ht⟩
    by_cases h : keyLtB (key x) (key y) = true
    · simp only [sIns, h, if_true]
      refine List.pairwise_cons.mpr ⟨?_, hp⟩
      intro z hz
      rcases List.mem_cons.mp hz with hz | hz
      · exact hz ▸ keyLtB_asymm h
      · exact keyLtB_le_trans (keyLtB_asymm h) (hy z hz)
    · simp only [sIns, h, Bool.false_eq_true, if_false]
      refine List.pairwise_cons.mpr ⟨?_, ih ht⟩
      intro z hz
      rcases mem_sIns hz with hz | hz
      · subst hz; simpa using h
      · exact hy z hz

theorem sortByKey_pairwise {α : Type} (key : α → Nat × Nat) (l : List α) :
    (sortByKey key l).Pairwise (fun a b => keyLtB (key b) (key a) = false) := by
  suffices h : ∀ (l acc : List α),
      acc.Pairwise (fun a b => keyLtB (key b) (key a) = false) →
      (l.foldl (fun acc x => sIns key x acc) acc).Pairwise
        (fun a b => keyLtB (key b) (key a) = false) by
    exact h l [] (by simp)
  intro l
  induction l with
  | nil => intro acc h; simpa using h
  | cons x t ih =>
    intro acc h
    exact ih (sIns key x acc) (pairwise_sIns key x acc h)

theorem lookupA_setA_self {β : Type} (l : List (String × β)) (k : String) (v : β) :
    lookupA k (setA l k v) = some v := by
  induction l with
  | nil => simp [setA, lookupA]
  | cons p t ih =>
    obtain ⟨k2, v2⟩ := p
    by_cases hk : k2 = k
    · simp [setA, hk, lookupA]
    · simp [setA, hk, lookupA, ih]

theorem lookupA_setA_other {β : Type} (l : List (String × β)) (k k2 : String) (v : β)
    (h : k2 ≠ k) : lookupA k2 (setA l k v) = lookupA k2 l := by
  induction l with
  | nil =>
    have hne : k ≠ k2 := fun h2 => h h2.symm
    simp [setA, lookupA, hne]
  | cons p t ih =>
    obtain ⟨k3, v3⟩ := p
    by_cases hk : k3 = k
    · subst hk
      have hne : k3 ≠ k2 := fun h2 => h h2.symm
      simp [setA, lookupA, hne]
    · simp [setA, hk, lookupA, ih]

theorem setA_map_fst {β : Type} (l : List (String × β)) (k : String) (v : β) :
    (setA l k v).map Prod.fst = l.map Prod.fst ∨
      (setA l k v).map Prod.fst = l.map Prod.fst ++ [k] := by
  induction l with
  | nil => right; simp [setA]
  | cons p t ih =>
    obtain ⟨k2, v2⟩ := p
    by_cases hk : k2 = k
    · left; simp [setA, hk]
    · rcases ih with ih | ih
      · left; simp [setA, hk, ih]
      · right; simp [setA, hk, ih]

theorem lookupA_eq_none {β : Type} (k : String) :
    ∀ l : List (String × β), lookupA k l = none ↔ k ∉ l.map Prod.fst := by
  intro l
  induction l with
  | nil => simp [lookupA]
  | cons p t ih =>
    obtain ⟨k2, v⟩ := p
    by_cases hk : k2 = k
    · subst hk
      simp [lookupA]
    · have hne : k ≠ k2 := fun h2 => hk h2.symm
      simp [lookupA, hk, ih, hne]

theorem setA_keys_nodup {β : Type} (l : List (String × β)) (k : String) (v : β)
    (h : (l.map Prod.fst).Nodup) (hk : lookupA k l = none) :
    ((setA l k v).map Prod.fst).Nodup := by
  have hout : k ∉ l.map Prod.fst := (lookupA_eq_none k l).mp hk
  rcases setA_map_fst l k v with heq | heq
  · rw [heq]; exact h
  · rw [heq]
    exact h.append (List.nodup_singleton k) (List.disjoint_singleton.mpr hout)

theorem lookupA_of_perm {β : Type} {l1 l2 : List (String × β)} (hp : l1.Perm l2)
    (hnd : (l1.map Prod.fst).Nodup) (k : String) : lookupA k l1 = lookupA k l2 := by
  induction hp with
  | nil => rfl
  | cons x hp2 ih =>
    obtain ⟨k2, v2⟩ := x
    rw [List.map_cons] at hnd
    by_cases hk : k2 = k
    · simp [lookupA, hk]
    · simpa [lookupA, hk] using ih hnd.of_cons
  | swap x y l =>
    obtain ⟨k2, v2⟩ := x
    obtain ⟨k3, v3⟩ := y
    rw [List.map_cons, List.map_cons] at hnd
    have hne : k3 ≠ k2 := by
      have h2 := (List.nodup_cons.mp hnd).1
      exact fun h3 => h2 (by simp [h3])
    by_cases h2 : k2 = k
    · subst h2
      simp [lookupA, hne]
    · by_cases h3 : k3 = k
      · subst h3
        simp [lookupA, h2]
      · simp [lookupA, h2, h3]
  | trans hp1 hp2 ih1 ih2 =>
    refine (ih1 hnd).trans (ih2 ?_)
    exact ((hp1.map Prod.fst).nodup_iff).mp hnd

theorem setA_map_fst_of_found {β : Type} (l : List (String × β)) (k : String) (v : β)
    (h : lookupA k l ≠ none) : (setA l k v).map Prod.fst = l.map Prod.fst := by
  induction l with
  | nil => simp [lookupA] at h
  | cons p t ih =>
    obtain ⟨k2, v2⟩ := p
    by_cases hk : k2 = k
    · simp [setA, hk]
    · simp only [lookupA, if_neg hk] at h
      simp [setA, hk, ih h]

theorem setA_keys_nodup_all {β : Type} (l : List (String × β)) (k : String) (v : β)
    (h : (l.map Prod.fst).Nodup) : ((setA l k v).map Prod.fst).Nodup := by
  by_cases hl : lookupA k l = none
  · exact setA_keys_nodup l k v h hl
  · rw [setA_map_fst_of_found l k v hl]; exact h

/-- C1: a successful merge run sets `terms[termLabel]` to the fresh
`TermSummary` built from this run's rows alone (`aggregateTerm` does not
read the store at all), leaves every other term label's summary
unchanged, and otherwise only re-sorts the terms mapping
chronologically: the result is a permutation of the plain assignment
`terms[label] = ts`, sorted by the chronological key. -/
theorem C1_merge_replaces_term (terms : List (String × TermSummary)) (label : String)
    (rows : List AggRow) (out : List (String × TermSummary))
    (hnd : (terms.map Prod.fst).Nodup)
    (h : mergeTerm terms label rows = Except.ok out) :
    ∃ ts, aggregateTerm rows = Except.ok ts ∧
      lookupA label out = some ts ∧
      (∀ l2, l2 ≠ label → lookupA l2 out = lookupA l2 terms) ∧
      out.Perm (setA terms label ts) ∧
      out.Pairwise (fun a b =>
        keyLtB ((termKey b.1).getD (0, 0)) ((termKey a.1).getD (0, 0)) = false) := by
  unfold mergeTerm at h
  split at h
  · exact absurd h (by simp)
  · rename_i ts hagg
    unfold sort_terms_dict at h
    split at h
    · injection h with h
      subst h
      have hndL : ((setA terms label ts).map Prod.fst).Nodup :=
        setA_keys_nodup_all terms label ts hnd
      have hperm : (sortByKey (fun p => (termKey p.1).getD (0, 0)) (setA terms label ts)).Perm
          (setA terms label ts) := sortByKey_perm _ _
      have hndout : ((sortByKey (fun p => (termKey p.1).getD (0, 0))
          (setA terms label ts)).map Prod.fst).Nodup :=
        ((hperm.map Prod.fst).nodup_iff).mpr hndL
      refine ⟨ts, hagg, ?_, ?_, hperm, sortByKey_pairwise _ _⟩
      · rw [lookupA_of_perm hperm hndout label]
        exact lookupA_setA_self terms label ts
      · intro l2 hl2
        rw [lookupA_of_perm hperm hndout l2]
        exact lookupA_setA_other terms label l2 ts hl2
    · exact absurd h (by simp)

theorem C1_merge_replaces_term_witness :
    ∃ ts, aggregateTerm c1Rows = Except.ok ts ∧
      lookupA "Winter 2024" c1Out = some ts ∧
      (∀ l2, l2 ≠ "Winter 2024" → lookupA l2 c1Out = lookupA l2 c1Terms) ∧
      c1Out.Perm (setA c1Terms "Winter 2024" ts) ∧
      c1Out.Pairwise (fun a b =>
        keyLtB ((termKey b.1).getD (0, 0)) ((termKey a.1).getD (0, 0)) = false) :=
  C1_merge_replaces_term c1Terms "Winter 2024" c1Rows c1Out (by decide) (by decide)

/-- C4: for every terms mapping whose labels all tokenise (the sort key
of a label with no whitespace-separated tokens raises `IndexError`),
`sort_terms_dict` returns a permutation of the mapping that is ascending
in the chronological key `(year, season rank)` computed by `termKey`
(season = first token, Winter=0 SpSu=1 Fall=2 else 3; year = second
token if present and all-digit, else 0); and on the concrete mapping
`Fall 2024, Winter 2025, SpSu 2024` the sorted order is
`SpSu 2024, Fall 2024, Winter 2025`. -/
theorem C4_sort_terms_chronological :
    (∀ terms : List (String × TermSummary), (∀ p ∈ terms, (termKey p.1).isSome) →
      ∃ out, sort_terms_dict terms = Except.ok out ∧ out.Perm terms ∧
        out.Pairwise (fun a b =>
          keyLtB ((termKey b.1).getD (0, 0)) ((termKey a.1).getD (0, 0)) = false)) ∧
    sort_terms_dict
        [("Fall 2024", ⟨1, 1, []⟩), ("Winter 2025", ⟨2, 2, []⟩), ("SpSu 2024", ⟨3, 3, []⟩)]
      = Except.ok
        [("SpSu 2024", ⟨3, 3, []⟩), ("Fall 2024", ⟨1, 1, []⟩), ("Winter 2025", ⟨2, 2, []⟩)] ∧
    termKey "Winter 2025" = some (2025, 0) ∧
    termKey "SpSu 2024" = some (2024, 1) ∧
    termKey "Fall 2024" = some (2024, 2) ∧
    termKey "Spring X" = some (0, 3) ∧
    termKey "Fall" = some (0, 2) := by
  refine ⟨?_, by decide, by decide, by decide, by decide, by decide, by decide⟩
  intro terms hall
  unfold sort_terms_dict
  rw [if_pos (List.all_eq_true.mpr fun p hp => hall p hp)]
  exact ⟨_, rfl, sortByKey_perm _ _, sortByKey_pairwise _ _⟩

theorem C4_sort_terms_chronological_witness :
    ∃ out, sort_terms_dict [("Fall 2024", ⟨9, 9, []⟩), ("SpSu 2024", ⟨4, 4, []⟩)]
        = Except.ok out ∧
      out.Perm [("Fall 2024", ⟨9, 9, []⟩), ("SpSu 2024", ⟨4, 4, []⟩)] ∧
      out.Pairwise (fun a b =>
        keyLtB ((termKey b.1).getD (0, 0)) ((termKey a.1).getD (0, 0)) = false) :=
  C4_sort_terms_chronological.1
    [("Fall 2024", ⟨9, 9, []⟩), ("SpSu 2024", ⟨4, 4, []⟩)] (by decide)

/-- C9: the aggregator is not total: a record with a non-blank,
practice-free course but a present (non-missing) whitespace-only
language cell drives the first-language extraction into `[0]` of an
empty token list, an unhandled `IndexError` that aborts the whole run
before anything is merged. -/
theorem C9_empty_language_index_error :
    isNA (Cell.str "") = false ∧
    pyStrip (pyStr (Cell.str "")) = "" ∧
    skippedRow ⟨Cell.str "FRENCH 220", Cell.str "", Cell.int 1, Cell.int 1⟩ = false ∧
    firstLangOf (Cell.str "") = Except.error "IndexError: list index out of range" ∧
    aggregateTerm [⟨Cell.str "FRENCH 220", Cell.str "", Cell.int 1, Cell.int 1⟩]
      = Except.error "IndexError: list index out of range" ∧
    mergeTerm [("Fall 2024", ⟨1, 1, []⟩)] "Winter 2025"
        [⟨Cell.str "FRENCH 220", Cell.str "", Cell.int 1, Cell.int 1⟩]
      = Except.error "IndexError: list index out of range" := by decide

/-- C10: a record with a missing (NaN) course is not skipped: its course
stringifies to the non-blank `"nan"`, so it is aggregated under
department key `"NAN"` with level `"Unknown"`, and its counts reach the
term totals. -/
theorem C10_nan_course_aggregated :
    pyStr Cell.na = "nan" ∧
    skippedRow ⟨Cell.na, Cell.na, Cell.int 3, Cell.int 2⟩ = false ∧
    rowParams ⟨Cell.na, Cell.na, Cell.int 3, Cell.int 2⟩
      = Except.ok (some ("NAN", "Unknown", 3, 2)) ∧
    aggregateTerm [⟨Cell.na, Cell.na, Cell.int 3, Cell.int 2⟩]
      = Except.ok ⟨3, 2, [("NAN", ⟨[("Unknown", ⟨3, 2⟩)], 3, 2⟩)]⟩ := by decide

theorem rowParams_error_of_bad {row : AggRow} (hns : skippedRow row = false)
    (hbad : pyInt row.studentsEnrolled = none ∨ pyInt row.reservations = none) :
    ∃ e, rowParams row = Except.error e := by
  simp only [rowParams]
  simp only [skippedRow] at hns
  rw [hns]
  simp only [Bool.false_eq_true, if_false]
  cases hsplit : pySplitWS (pyStrip (pyStr row.course)) with
  | nil => exact ⟨_, rfl⟩
  | cons tok rest =>
    cases hfl : firstLangOf row.language with
    | error e => exact ⟨e, rfl⟩
    | ok fl =>
      cases hstu : pyInt row.studentsEnrolled with
      | none => exact ⟨_, rfl⟩
      | some s =>
        cases hres : pyInt row.reservations with
        | none => exact ⟨_, rfl⟩
        | some r =>
          rcases hbad with hb | hb
          · rw [hstu] at hb; cases hb
          · rw [hres] at hb; cases hb

/-- C3 counterexample: the claim quantifies over every input record, but
a record skipped by the blank-course/practice rule never has its numeric
fields parsed: with the single record course `"practice"`,
students `"abc"`, reservations `"abc"` (both unparseable), the whole
aggregation succeeds and the merge still replaces the term — the run
does not fail. -/
theorem C3_counterexample_skipped_bad_numeric :
    pyInt (Cell.str "abc") = none ∧
    skippedRow ⟨Cell.str "practice", Cell.na, Cell.str "abc", Cell.str "abc"⟩ = true ∧
    aggregateTerm [⟨Cell.str "practice", Cell.na, Cell.str "abc", Cell.str "abc"⟩]
      = Except.ok ⟨0, 0, []⟩ ∧
    mergeTerm [] "Fall 2024" [⟨Cell.str "practice", Cell.na, Cell.str "abc", Cell.str "abc"⟩]
      = Except.ok [("Fall 2024", ⟨0, 0, []⟩)] := by decide

/-- C3 (amended): if any input record that is NOT skipped by the
blank-course/practice rule has a students or reservations field that
cannot be parsed as an integer, the whole term aggregation fails with a
propagated error, and so does the merge — no store is produced for the
persistence layer to write (the Drive upload of line 244 is never
reached). -/
theorem C3_unskipped_bad_numeric_aborts (terms : List (String × TermSummary))
    (label : String) (rows : List AggRow) (row : AggRow)
    (hmem : row ∈ rows) (hns : skippedRow row = false)
    (hbad : pyInt row.studentsEnrolled = none ∨ pyInt row.reservations = none) :
    (∃ e, aggregateTerm rows = Except.error e) ∧
    (∃ e, mergeTerm terms label rows = Except.error e) := by
  obtain ⟨e0, he0⟩ := rowParams_error_of_bad hns hbad
  obtain ⟨e1, he1⟩ := aggLoop_error_of_mem hmem he0 emptyTermSummary
  have hagg : aggregateTerm rows = Except.error e1 := he1
  exact ⟨⟨e1, hagg⟩, ⟨e1, by simp [mergeTerm, hagg]⟩⟩

theorem C3_unskipped_bad_numeric_aborts_witness :
    (∃ e, aggregateTerm
        [⟨Cell.str "FRENCH 220", Cell.str "French", Cell.str "25 students", Cell.int 2⟩]
      = Except.error e) ∧
    (∃ e, mergeTerm [("Fall 2023", ⟨1, 1, []⟩)] "Winter 2024"
        [⟨Cell.str "FRENCH 220", Cell.str "French", Cell.str "25 students", Cell.int 2⟩]
      = Except.error e) :=
  C3_unskipped_bad_numeric_aborts [("Fall 2023", ⟨1, 1, []⟩)] "Winter 2024"
    [⟨Cell.str "FRENCH 220", Cell.str "French", Cell.str "25 students", Cell.int 2⟩]
    ⟨Cell.str "FRENCH 220", Cell.str "French", Cell.str "25 students", Cell.int 2⟩
    (by decide) (by decide) (Or.inl (by decide))

theorem bump_preserves_sums (t : TermSummary) (d lv : String) (s r : Int)
    (h : termSumsOK t) : termSumsOK (bump t d lv s r) := by
  obtain ⟨h1, h2, h3⟩ := h
  unfold bump
  refine ⟨?_, ?_, ?_⟩
  · dsimp only
    rw [bump_dept_students_sum, ← h1]
  · dsimp only
    rw [bump_dept_reservations_sum, ← h2]
  · dsimp only
    apply updateAList_forall (fun q => deptSumsOK q.2)
    · exact h3
    · refine ⟨?_, ?_⟩ <;> dsimp only <;> simp [updateAList, deptSumsOK]
    · intro v hv
      obtain ⟨hv1, hv2⟩ := hv
      dsimp only at hv1 hv2
      refine ⟨?_, ?_⟩ <;> dsimp only [deptSumsOK]
      · rw [bump_level_students_sum, ← hv1]
      · rw [bump_level_reservations_sum, ← hv2]

theorem aggregate_sums_ok {rows : List AggRow} {ts : TermSummary}
    (h : aggregateTerm rows = Except.ok ts) : termSumsOK ts := by
  refine aggLoop_preserves termSumsOK ?_ rows emptyTermSummary ts ?_ h
  · intro t row t2 hstep hP
    rcases aggStep_ok hstep with rfl | ⟨d, l, s, r, _, rfl⟩
    · exact hP
    · exact bump_preserves_sums t d l s r hP
  · exact ⟨by simp [emptyTermSummary], by simp [emptyTermSummary], by simp [emptyTermSummary]⟩

theorem map_sum_congr {γ : Type} (l : List γ) (f g : γ → Int)
    (h : ∀ a ∈ l, f a = g a) : (l.map f).sum = (l.map g).sum := by
  induction l with
  | nil => rfl
  | cons a t ih =>
    simp only [List.map_cons, List.sum_cons, h a (by simp)]
    rw [ih (fun x hx => h x (by simp [hx]))]

/-- C2: for every `TermSummary` produced by a successful aggregation,
`total_students` equals the sum over departments of their
`total_students`, which equals the sum over all departments and levels
of the bucket `students`; the same holds for reservations, and every
department's totals equal the sums over its levels (each `+=` is a
running sum, never an overwrite). -/
theorem C2_sum_invariant (rows : List AggRow) (ts : TermSummary)
    (h : aggregateTerm rows = Except.ok ts) :
    ts.total_students = (ts.departments.map (fun q => q.2.total_students)).sum ∧
    ts.total_reservations = (ts.departments.map (fun q => q.2.total_reservations)).sum ∧
    (∀ q ∈ ts.departments,
      q.2.total_students = (q.2.levels.map (fun p => p.2.students)).sum ∧
      q.2.total_reservations = (q.2.levels.map (fun p => p.2.reservations)).sum) ∧
    ts.total_students
      = (ts.departments.map (fun q => (q.2.levels.map (fun p => p.2.students)).sum)).sum ∧
    ts.total_reservations
      = (ts.departments.map (fun q => (q.2.levels.map (fun p => p.2.reservations)).sum)).sum := by
  obtain ⟨h1, h2, h3⟩ := aggregate_sums_ok h
  refine ⟨h1, h2, fun q hq => h3 q hq, ?_, ?_⟩
  · rw [h1]
    exact map_sum_congr _ _ _ (fun q hq => (h3 q hq).1)
  · rw [h2]
    exact map_sum_congr _ _ _ (fun q hq => (h3 q hq).2)

theorem C2_sum_invariant_witness :
    let ts : TermSummary :=
      ⟨30, 3, [("FRENCH", ⟨[("200", ⟨25, 2⟩)], 25, 2⟩),
               ("ASIANLAN: JAPANESE", ⟨[("100", ⟨5, 1⟩)], 5, 1⟩)]⟩
    ts.total_students = (ts.departments.map (fun q => q.2.total_students)).sum ∧
    ts.total_reservations = (ts.departments.map (fun q => q.2.total_reservations)).sum ∧
    (∀ q ∈ ts.departments,
      q.2.total_students = (q.2.levels.map (fun p => p.2.students)).sum ∧
      q.2.total_reservations = (q.2.levels.map (fun p => p.2.reservations)).sum) ∧
    ts.total_students
      = (ts.departments.map (fun q => (q.2.levels.map (fun p => p.2.students)).sum)).sum ∧
    ts.total_reservations
      = (ts.departments.map (fun q => (q.2.levels.map (fun p => p.2.reservations)).sum)).sum :=
  C2_sum_invariant
    [⟨Cell.str "FRENCH 220", Cell.str "French", Cell.int 25, Cell.int 2⟩,
     ⟨Cell.str "ASIANLAN 101", Cell.str "Japanese, Korean", Cell.int 5, Cell.int 1⟩]
    _ (by decide)

theorem levelOf_good (code : String) : goodLevel (levelOf code) := by
  unfold levelOf goodLevel
  cases h : firstDigitRun code.data with
  | none => left; rfl
  | some ds =>
    right
    exact ⟨digitsToNat ds / 100, rfl⟩

theorem mem_updateAList {β : Type} {l : List (String × β)} {k : String} {dflt : β}
    {f : β → β} {q : String × β} (hq : q ∈ updateAList l k dflt f) :
    q ∈ l ∨ q = (k, f dflt) ∨ ∃ v, (k, v) ∈ l ∧ q = (k, f v) := by
  induction l with
  | nil =>
    simp only [updateAList, List.mem_singleton] at hq
    exact Or.inr (Or.inl hq)
  | cons p t ih =>
    obtain ⟨k2, v2⟩ := p
    by_cases hk : k2 = k
    · subst hk
      simp only [updateAList, if_pos rfl] at hq
      rcases List.mem_cons.mp hq with hq2 | hq2
      · exact Or.inr (Or.inr ⟨v2, List.mem_cons_self _ _, hq2⟩)
      · exact Or.inl (List.mem_cons_of_mem _ hq2)
    · simp only [updateAList, if_neg hk] at hq
      rcases List.mem_cons.mp hq with hq2 | hq2
      · exact Or.inl (hq2 ▸ List.mem_cons_self _ _)
      · rcases ih hq2 with h1 | h1 | ⟨v, hv, h1⟩
        · exact Or.inl (List.mem_cons_of_mem _ h1)
        · exact Or.inr (Or.inl h1)
        · exact Or.inr (Or.inr ⟨v, List.mem_cons_of_mem _ hv, h1⟩)

theorem bump_preserves_levels (t : TermSummary) (d lv : String) (s r : Int)
    (hlv : goodLevel lv) (h : levelsOK t) : levelsOK (bump t d lv s r) := by
  intro q hq p hp
  unfold bump at hq
  dsimp only at hq
  rcases mem_updateAList hq with h1 | h1 | ⟨v, hv, h1⟩
  · exact h q h1 p hp
  · subst h1
    dsimp only at hp
    simp only [updateAList, List.mem_singleton] at hp
    subst hp
    exact hlv
  · subst h1
    dsimp only at hp
    rcases mem_updateAList hp with h2 | h2 | ⟨b, hb, h2⟩
    · exact h (d, v) hv p h2
    · subst h2; exact hlv
    · subst h2; exact hlv

/-- C6: whenever the aggregator processes a record (does not skip it),
the produced level is exactly the claim's formula — the decimal string
of `floor(n / 100) * 100` for `n` the integer value of the first digit
run of the course text, or `"Unknown"` when there is no digit;
consequently every level key in any summary produced by a successful
aggregation is a multiple of 100 or `"Unknown"`.  Examples:
`"FRENCH 220" → "200"` and `"SEMINAR" → "Unknown"`. -/
theorem C6_level_bucketing :
    (∀ row d lv s r, rowParams row = Except.ok (some (d, lv, s, r)) →
      lv = (match firstDigitRun (pyStrip (pyStr row.course)).data with
        | some ds => natStr (digitsToNat ds / 100 * 100)
        | none => "Unknown") ∧
      (lv = "Unknown" ∨ ∃ k, lv = natStr (k * 100))) ∧
    (∀ rows ts, aggregateTerm rows = Except.ok ts →
      ∀ q ∈ ts.departments, ∀ p ∈ q.2.levels,
        p.1 = "Unknown" ∨ ∃ k, p.1 = natStr (k * 100)) ∧
    rowParams ⟨Cell.str "FRENCH 220", Cell.na, Cell.int 25, Cell.int 2⟩
      = Except.ok (some ("FRENCH", "200", 25, 2)) ∧
    rowParams ⟨Cell.str "SEMINAR", Cell.na, Cell.int 5, Cell.int 1⟩
      = Except.ok (some ("SEMINAR", "Unknown", 5, 1)) := by
  refine ⟨?_, ?_, by decide, by decide⟩
  · intro row d lv s r h
    obtain ⟨-, tok, rest, fl, -, -, -, -, -, hlv⟩ := rowParams_ok_some h
    exact ⟨hlv, hlv ▸ levelOf_good _⟩
  · intro rows ts h
    refine aggLoop_preserves levelsOK ?_ rows emptyTermSummary ts ?_ h
    · intro t row t2 hstep hP
      rcases aggStep_ok hstep with rfl | ⟨d, lv, s, r, hrp, rfl⟩
      · exact hP
      · obtain ⟨-, tok, rest, fl, -, -, -, -, -, hlv⟩ := rowParams_ok_some hrp
        exact bump_preserves_levels t d lv s r (hlv ▸ levelOf_good _) hP
    · intro q hq
      simp [emptyTermSummary] at hq

theorem C6_level_bucketing_witness :
    ("200" : String) = (match firstDigitRun (pyStrip (pyStr (Cell.str "FRENCH 220"))).data with
      | some ds => natStr (digitsToNat ds / 100 * 100)
      | none => "Unknown") ∧
    (("200" : String) = "Unknown" ∨ ∃ k, ("200" : String) = natStr (k * 100)) :=
  C6_level_bucketing.1 ⟨Cell.str "FRENCH 220", Cell.na, Cell.int 25, Cell.int 2⟩
    "FRENCH" "200" 25 2 (by decide)

theorem firstLangOf_spec {c : Cell} {fl : Option String}
    (h : firstLangOf c = Except.ok fl) :
    spec_first_language c = fl ∧ ∀ w, fl = some w → w ≠ "" := by
  cases c with
  | na =>
    simp only [firstLangOf] at h
    injection h with h
    subst h
    exact ⟨rfl, fun w hw => by cases hw⟩
  | str s =>
    simp only [firstLangOf] at h
    cases hsp : pySplitWS (pyStrip ((pySplitComma (pyStr (Cell.str s))).headI)) with
    | nil => rw [hsp] at h; cases h
    | cons w rest =>
      rw [hsp] at h
      injection h with h
      subst h
      refine ⟨?_, ?_⟩
      · simp only [spec_first_language, hsp, List.head?_cons]
      · intro w2 hw2
        have hwtok := (token_facts _ w (hsp ▸ List.mem_cons_self _ _)).1
        by_cases hnan : pyLower w = "nan"
        · rw [if_pos hnan] at hw2; cases hw2
        · rw [if_neg hnan] at hw2
          injection hw2 with hw2
          exact hw2 ▸ hwtok
  | int i =>
    simp only [firstLangOf] at h
    cases hsp : pySplitWS (pyStrip ((pySplitComma (pyStr (Cell.int i))).headI)) with
    | nil => rw [hsp] at h; cases h
    | cons w rest =>
      rw [hsp] at h
      injection h with h
      subst h
      refine ⟨?_, ?_⟩
      · simp only [spec_first_language, hsp, List.head?_cons]
      · intro w2 hw2
        have hwtok := (token_facts _ w (hsp ▸ List.mem_cons_self _ _)).1
        by_cases hnan : pyLower w = "nan"
        · rw [if_pos hnan] at hw2; cases hw2
        · rw [if_neg hnan] at hw2
          injection hw2 with hw2
          exact hw2 ▸ hwtok

/-- C5: for every record the aggregator processes, the department key is
computed exactly as the claim describes: raw key = first
whitespace-delimited token of the course text, lowercased; first
language = first comma token then first whitespace sub-token of the
language field, absent when missing or `"nan"`; the key is
`uppercase(raw ++ ": " ++ language)` for the special families
`asianlan`/`slavic`/`asian` with a language present, else
`uppercase(raw)`.  Examples: `ASIANLAN 101`/`Japanese, ...` gives
`"ASIANLAN: JAPANESE"`, `FRENCH 220` gives `"FRENCH"`. -/
theorem C5_department_key :
    (∀ row d lv s r, rowParams row = Except.ok (some (d, lv, s, r)) →
      d = spec_dept_key row.course row.language) ∧
    rowParams ⟨Cell.str "ASIANLAN 101", Cell.str "Japanese, Korean", Cell.int 5, Cell.int 2⟩
      = Except.ok (some ("ASIANLAN: JAPANESE", "100", 5, 2)) ∧
    spec_dept_key (Cell.str "ASIANLAN 101") (Cell.str "Japanese, Korean")
      = "ASIANLAN: JAPANESE" ∧
    rowParams ⟨Cell.str "FRENCH 220", Cell.str "French", Cell.int 25, Cell.int 2⟩
      = Except.ok (some ("FRENCH", "200", 25, 2)) ∧
    spec_dept_key (Cell.str "FRENCH 220") (Cell.str "French") = "FRENCH" := by
  refine ⟨?_, by decide, by decide, by decide, by decide⟩
  intro row d lv s r h
  obtain ⟨-, tok, rest, fl, htok, hfl, -, -, hd, -⟩ := rowParams_ok_some h
  subst hd
  obtain ⟨htne, htstrip⟩ := token_facts (pyStrip (pyStr row.course)) tok
    (htok ▸ List.mem_cons_self _ _)
  obtain ⟨hspec, hne⟩ := firstLangOf_spec hfl
  unfold spec_dept_key
  rw [htok]
  simp only [List.headD_cons]
  rw [htstrip, hspec]
  cases fl with
  | none =>
    unfold deptKeyOf
    simp
  | some w =>
    have hw : w ≠ "" := hne w rfl
    unfold deptKeyOf
    dsimp only
    have htruthy : (w != "") = true := by
      simpa using hw
    by_cases hspecial :
        pyLower tok = "asianlan" ∨ pyLower tok = "slavic" ∨ pyLower tok = "asian"
    · rw [if_pos ⟨hspecial, htruthy⟩, if_pos hspecial]
      rfl
    · rw [if_neg (fun hc => hspecial hc.1), if_neg hspecial]

theorem C5_department_key_witness :
    ("ASIANLAN: JAPANESE" : String)
      = spec_dept_key (Cell.str "ASIANLAN 101") (Cell.str "Japanese, Korean") :=
  C5_department_key.1
    ⟨Cell.str "ASIANLAN 101", Cell.str "Japanese, Korean", Cell.int 5, Cell.int 2⟩
    "ASIANLAN: JAPANESE" "100" 5 2 (by decide)

theorem studentsOf_eq_spec (es : List Cell) : studentsOf es = spec_students es := by
  induction es with
  | nil => rfl
  | cons c t ih =>
    by_cases hna : isNA c = true
    · simp only [studentsOf, spec_students, List.filter_cons, List.find?_cons, hna,
        Bool.not_true, Bool.false_eq_true, if_false] at *
      exact ih
    · simp only [Bool.not_eq_true] at hna
      simp only [studentsOf, spec_students, List.filter_cons, List.find?_cons, hna,
        Bool.not_false, if_true]

/-- C7: the Students Enrolled value of every group the normalizer forms
is taken from the first row of the group (in original row order) whose
enrollment is non-missing, by parsing the first maximal digit run of its
string representation; it is 0 when that string has no digits and 0 when
every enrollment in the group is missing.  Examples:
`"25 students" → 25`, all-missing → 0. -/
theorem C7_students_extraction :
    (∀ g : (Cell × Cell × Cell) × List RawRow,
      (recordOfGroup g).students = spec_students (g.2.map (fun r => r.enrollment))) ∧
    (∀ t g, g ∈ groupRows (prep t) →
      (recordOfGroup g).students = spec_students (g.2.map (fun r => r.enrollment))) ∧
    spec_students [Cell.str "25 students"] = 25 ∧
    studentsOf [Cell.str "25 students"] = 25 ∧
    spec_students [Cell.na, Cell.na] = 0 ∧
    studentsOf [Cell.na, Cell.na] = 0 := by
  refine ⟨?_, ?_, by decide, by decide, by decide, by decide⟩
  · intro g
    exact studentsOf_eq_spec _
  · intro t g _
    exact studentsOf_eq_spec _

theorem C7_students_extraction_witness :
    (recordOfGroup ((Cell.str "abc123", Cell.str "FRENCH 220", Cell.int 1),
        [⟨Cell.str "abc123", Cell.str "FRENCH 220", Cell.int 1, Cell.str "French",
          Cell.str "25 students"⟩])).students
      = spec_students
        ([(⟨Cell.str "abc123", Cell.str "FRENCH 220", Cell.int 1, Cell.str "French",
            Cell.str "25 students"⟩ : RawRow)].map (fun r => r.enrollment)) :=
  C7_students_extraction.2.1
    [⟨Cell.str "abc123", Cell.str "french 220", Cell.int 1, Cell.str "French",
      Cell.str "25 students"⟩]
    ((Cell.str "abc123", Cell.str "FRENCH 220", Cell.int 1),
      [⟨Cell.str "abc123", Cell.str "FRENCH 220", Cell.int 1, Cell.str "French",
        Cell.str "25 students"⟩])
    (by decide)

theorem goodRec_parts {rec : CleanRecord} (h : GoodRec rec = true) :
    (∃ c, rec.course = Cell.str c ∧ pyStrip c = c ∧ pyUpper c = c ∧ c ≠ "" ∧
      hasSubstr (pyLower c).data "testcourse".data = false) ∧
    isNA rec.«section» = false ∧ pyStrip (pyStr rec.«section») ≠ "" ∧
    pyStrip rec.language = rec.language := by
  unfold GoodRec at h
  cases hc : rec.course with
  | na => rw [hc] at h; simp at h
  | int i => rw [hc] at h; simp at h
  | str c =>
    rw [hc] at h
    simp only [Bool.and_eq_true, beq_iff_eq, bne_iff_ne, Bool.not_eq_true'] at h
    obtain ⟨⟨⟨⟨⟨hstrip, hupper⟩, hcne⟩, htc⟩, hsec, hsecne⟩, hlang⟩ := h
    exact ⟨⟨c, rfl, hstrip, hupper, hcne, htc⟩, hsec, hsecne, hlang⟩

theorem map_congr_mem {γ δ : Type} (l : List γ) (f g : γ → δ)
    (h : ∀ a ∈ l, f a = g a) : l.map f = l.map g := by
  induction l with
  | nil => rfl
  | cons a t ih =>
    simp only [List.map_cons, h a (List.mem_cons_self _ _)]
    rw [ih (fun x hx => h x (List.mem_cons_of_mem _ hx))]

theorem prep_inject (out : List CleanRecord)
    (h : ∀ rec ∈ out, GoodRec rec = true) :
    prep (out.map inject) = out.map inject := by
  induction out with
  | nil => rfl
  | cons rec t ih =>
    obtain ⟨⟨c, hc, hstrip, hupper, hcne, htc⟩, hsec, hsecne, hlang⟩ :=
      goodRec_parts (h rec (List.mem_cons_self _ _))
    have ht := ih (fun x hx => h x (List.mem_cons_of_mem _ hx))
    have hkeep : keepRow (inject rec) = true := by
      simp [keepRow, inject, hc, pdStrStrip, pdNeEmpty, isNA, hstrip, hcne]
    have hF : { inject rec with course := cleanCourse (inject rec).course } = inject rec := by
      simp [inject, cleanCourse, hc, hstrip, hupper]
    have hG : isTestCourse (inject rec).course = false := by
      simp [inject, isTestCourse, hc, htc]
    simp only [List.map_cons]
    simp only [prep] at ht ⊢
    simp only [List.filter_cons, hkeep, if_true, List.map_cons, hF]
    simp only [hG, Bool.not_false, if_true, ht]

theorem addToGroups_new (gs : List ((Cell × Cell × Cell) × List RawRow))
    (k : Cell × Cell × Cell) (r : RawRow) (h : ∀ g ∈ gs, g.1 ≠ k) :
    addToGroups gs k r = gs ++ [(k, [r])] := by
  induction gs with
  | nil => rfl
  | cons g t ih =>
    obtain ⟨k2, rs⟩ := g
    have hk2 : k2 ≠ k := h (k2, rs) (List.mem_cons_self _ _)
    simp only [addToGroups, if_neg hk2]
    rw [ih (fun g2 hg2 => h g2 (List.mem_cons_of_mem _ hg2))]
    rfl

theorem groupRows_of_nodup :
    ∀ (rows : List RawRow) (gs : List ((Cell × Cell × Cell) × List RawRow)),
      (rows.map keyOf).Nodup → (∀ g ∈ gs, ∀ r ∈ rows, g.1 ≠ keyOf r) →
      rows.foldl (fun gs r => addToGroups gs (keyOf r) r) gs
        = gs ++ rows.map (fun r => (keyOf r, [r])) := by
  intro rows
  induction rows with
  | nil => intro gs _ _; simp
  | cons r t ih =>
    intro gs hnd hdis
    rw [List.map_cons] at hnd
    simp only [List.foldl_cons]
    rw [addToGroups_new gs (keyOf r) r
      (fun g hg => hdis g hg r (List.mem_cons_self _ _))]
    rw [ih (gs ++ [(keyOf r, [r])]) hnd.of_cons ?_]
    · simp
    · intro g hg r2 hr2
      rcases List.mem_append.mp hg with hg2 | hg2
      · exact hdis g hg2 r2 (List.mem_cons_of_mem _ hr2)
      · have hgk : g.1 = keyOf r := by
          simp only [List.mem_singleton] at hg2
          rw [hg2]
        rw [hgk]
        intro hcontra
        exact (List.nodup_cons.mp hnd).1 (hcontra ▸ List.mem_map_of_mem keyOf hr2)

theorem groupRows_nodup (rows : List RawRow) (h : (rows.map keyOf).Nodup) :
    groupRows rows = rows.map (fun r => (keyOf r, [r])) := by
  have h2 := groupRows_of_nodup rows [] h (by simp)
  simpa [groupRows] using h2

theorem studentsOf_int_nat (n : Nat) : studentsOf [Cell.int (n : Int)] = n := by
  have h1 : pyStr (Cell.int (n : Int)) = natStr n := by
    simp only [pyStr, intStr, if_neg (by omega : ¬ ((n : Int) < 0)), Int.toNat_ofNat]
  simp only [studentsOf, List.filter_cons, isNA, Bool.not_false, if_true,
    List.filter_nil, h1]
  show (match firstDigitRun (natChars n) with
    | some ds => digitsToNat ds
    | none => 0) = n
  rw [firstDigitRun_natChars]
  exact digitsToNat_natChars n

theorem recordOfGroup_single (rec : CleanRecord) (h : GoodRec rec = true) :
    recordOfGroup (keyOf (inject rec), [inject rec]) = setRes1 rec := by
  obtain ⟨i, co, se, la, res, stu⟩ := rec
  obtain ⟨⟨c, hc, hstrip, hupper, hcne, htc⟩, hsec, hsecne, hlang⟩ := goodRec_parts h
  dsimp only at hc hsec hsecne hlang
  subst hc
  unfold recordOfGroup setRes1 keyOf inject
  dsimp only
  simp only [isNA, Bool.not_false, if_true, List.filter_cons, List.filter_nil,
    List.map_cons, List.map_nil, pyStr]
  rw [CleanRecord.mk.injEq]
  refine ⟨rfl, rfl, ?_, ?_, rfl, studentsOf_int_nat stu⟩
  · rw [if_pos]
    rw [Bool.and_eq_true]
    constructor
    · simpa using hsec
    · simpa using hsecne
  · rw [hlang]
    rfl

/-- C8 counterexample: normalization is not idempotent on every raw
table.  On `c8t` the first pass keeps the two distinct section keys
(NaN vs the literal `"Unknown Section"`) in separate groups but writes
`"Unknown Section"` as both output sections, so the output is not
one-row-per-group as the claim asserts: re-normalizing merges the two
records into one (with Reservations 2, not 1). -/
theorem C8_counterexample_section_collision :
    (normalizeRows c8t).length = 2 ∧
    (normalizeRows ((normalizeRows c8t).map inject)).length = 1 ∧
    normalizeRows ((normalizeRows c8t).map inject) ≠ (normalizeRows c8t).map setRes1 := by
  decide

/-- C8 (amended): re-normalizing the normalizer's output reproduces it
with Reservations = 1 for each row, provided the output really is a
one-row-per-group table — pairwise-distinct (Instructor, Course,
Section) triples — with string-typed course cells (automatic when the
raw course cells are strings) and languages unchanged by trimming. -/
theorem C8_normalize_idempotent (t : List RawRow)
    (h1 : ∀ rec ∈ normalizeRows t, GoodRec rec = true)
    (h2 : ((normalizeRows t).map
      (fun rec => (rec.instructor, rec.course, rec.«section»))).Nodup) :
    normalizeRows ((normalizeRows t).map inject) = (normalizeRows t).map setRes1 := by
  generalize normalizeRows t = out at h1 h2 ⊢
  unfold normalizeRows
  rw [prep_inject out h1]
  have hkeys : ((out.map inject).map keyOf).Nodup := by
    rw [List.map_map]
    exact h2
  rw [groupRows_nodup _ hkeys]
  rw [List.map_map, List.map_map]
  exact map_congr_mem out _ _ (fun rec hrec => recordOfGroup_single rec (h1 rec hrec))

theorem C8_normalize_idempotent_witness :
    normalizeRows ((normalizeRows c8w).map inject) = (normalizeRows c8w).map setRes1 :=
  C8_normalize_idempotent c8w (by decide) (by decide)
